import Mathlib

/-!
Shallow embedding of `src/main.js` of node-feedstorage (a MongoDB-backed
RSS/Atom feed store), together with theorems settling the spec claims.

Conventions of the embedding:
* JavaScript values that flow through the compared/assigned fields are
  strings, `null`, or `undefined`; they are modelled by `JSVal`.
  JS loose equality (`==` / `!=`) on these values is `jsEqB` / `jsNeqB`:
  `undefined == null` is true, strings compare by content, and a string
  never equals `null`/`undefined`.
* MongoDB documents are Lean structures mirroring the mongoose schemas
  (`feedSchema`, `articleSchema` in src/main.js lines 8-47).  The store is
  a list of documents; `findOne` is `List.find?` (first match), `save` of a
  new document appends, `save` of a fetched document replaces the first
  matching document in place.
* Dates are integers (milliseconds since epoch).  `Date.setDate(d - days)`
  is modelled as subtracting `days * 86400000` ms (fixed-length days; the
  calendar/DST subtlety of `setDate` is irrelevant to every claim below).
* External collaborators (HTTP transport, chardet, iconv-lite, feedparser)
  are parameters of the pipeline functions, constrained only by their
  interface types, as §6 of the spec prescribes.
-/

deriving instance DecidableEq for Except

/-- JavaScript value in the positions the program compares / stores:
a string, `null`, or `undefined`. -/
inductive JSVal where
  | undef
  | nullV
  | str (s : String)
deriving DecidableEq

/-- JS loose equality `==` restricted to `JSVal`:
`undefined == null` (and reflexive pairs) are true; strings compare by
content; a string is never loosely equal to `null`/`undefined`. -/
def jsEqB : JSVal → JSVal → Bool
  | .undef, .undef => true
  | .undef, .nullV => true
  | .nullV, .undef => true
  | .nullV, .nullV => true
  | .str a, .str b => a == b
  | _, _ => false

/-- JS loose inequality `!=` on `JSVal`. -/
def jsNeqB (a b : JSVal) : Bool := !(jsEqB a b)

/-- Escape a character sequence for JSON output (quote and backslash). -/
def jsonEscapeChars : List Char → String
  | [] => ""
  | c :: rest =>
    (if c = Char.ofNat 34 then "\\\""
     else if c = Char.ofNat 92 then "\\\\"
     else String.singleton c) ++ jsonEscapeChars rest

/-- Escape a string for JSON output (quote and backslash). -/
def jsonEscape (s : String) : String :=
  jsonEscapeChars s.data

/-- Comma-separated concatenation (JSON array element joining). -/
def joinWithComma : List String → String
  | [] => ""
  | [s] => s
  | s :: rest => s ++ "," ++ joinWithComma rest

/-- `JSON.stringify` of an array of strings, as used on the `categories`
field by `feedRequiresUpdate` / `articleRequiresUpdate`
(src/main.js lines 299-300, 388-389). -/
def jsonStringifyArr (l : List String) : String :=
  "[" ++ joinWithComma (l.map (fun s => "\"" ++ jsonEscape s ++ "\"")) ++ "]"

/-- The `image` subdocument `{ title, url }` of the schemas. -/
structure ImagePair where
  title : JSVal
  url : JSVal
deriving DecidableEq

/-- The `source` subdocument `{ title, url }` of the article schema. -/
structure SourcePair where
  title : JSVal
  url : JSVal
deriving DecidableEq

/-- One element of the `enclosures` array `{ url, type, length }`. -/
structure Enclosure where
  url : JSVal
  etype : JSVal
  elength : JSVal
deriving DecidableEq

/-- A stored `Feed` document (mongoose `feedSchema`, src/main.js lines 8-24).
`feedId` embeds the `_id` field (the feed URL, the unique key). -/
structure FeedDoc where
  feedId : String
  title : JSVal
  description : JSVal
  link : JSVal
  xmlUrl : JSVal
  date : Option Int
  pubDate : Option Int
  author : JSVal
  language : JSVal
  image : ImagePair
  favicon : JSVal
  copyright : JSVal
  generator : JSVal
  categories : List String
  lastModified : JSVal
deriving DecidableEq

/-- A parsed feed-metadata record as emitted by feedparser's `meta` event
(the fields src/main.js reads from it). -/
structure FeedMeta where
  title : JSVal
  description : JSVal
  link : JSVal
  xmlUrl : JSVal
  date : Option Int
  pubDate : Option Int
  author : JSVal
  language : JSVal
  image : ImagePair
  favicon : JSVal
  copyright : JSVal
  generator : JSVal
  categories : List String
deriving DecidableEq

/-- `feedRequiresUpdate(feedDocument, meta, lastModified)`
(src/main.js lines 285-306): true exactly when every compared field
differs (JS `!=`) — a conjunctive all-fields-must-differ predicate. -/
def feedRequiresUpdate (d : FeedDoc) (m : FeedMeta) (lastModified : JSVal) : Bool :=
  jsNeqB d.title m.title &&
  jsNeqB d.description m.description &&
  jsNeqB d.link m.link &&
  jsNeqB d.xmlUrl m.xmlUrl &&
  jsNeqB d.author m.author &&
  jsNeqB d.language m.language &&
  jsNeqB d.image.title m.image.title &&
  jsNeqB d.image.url m.image.url &&
  jsNeqB d.favicon m.favicon &&
  jsNeqB d.copyright m.copyright &&
  jsNeqB d.generator m.generator &&
  (jsonStringifyArr d.categories != jsonStringifyArr m.categories) &&
  jsNeqB d.lastModified lastModified

/-- `updateFeedMeta(feedDocument, meta, lastModified)`
(src/main.js lines 257-283): if `feedRequiresUpdate` holds, overwrite
every field (and `lastModified` with the third parameter), else leave
the document untouched.  NOTE: the function is *declared* with three
parameters; its only call site passes four arguments (see
`saveOrUpdateFeedMetaOnExisting` below). -/
def updateFeedMeta (d : FeedDoc) (m : FeedMeta) (lastModified : JSVal) : FeedDoc :=
  if feedRequiresUpdate d m lastModified then
    { d with
      title := m.title
      description := m.description
      link := m.link
      xmlUrl := m.xmlUrl
      date := m.date
      pubDate := m.pubDate
      author := m.author
      language := m.language
      image := m.image
      favicon := m.favicon
      copyright := m.copyright
      generator := m.generator
      categories := m.categories
      lastModified := lastModified }
  else d

/-- `createFeedDocument(meta, url, lastModified)` (src/main.js lines 308-315). -/
def createFeedDocument (m : FeedMeta) (url : String) (lastModified : JSVal) : FeedDoc :=
  { feedId := url
    title := m.title
    description := m.description
    link := m.link
    xmlUrl := m.xmlUrl
    date := m.date
    pubDate := m.pubDate
    author := m.author
    language := m.language
    image := m.image
    favicon := m.favicon
    copyright := m.copyright
    generator := m.generator
    categories := m.categories
    lastModified := lastModified }

/-- The update branch of `saveOrUpdateFeedMeta` (src/main.js line 238):
the source invokes `updateFeedMeta(feedDocument, meta, url, lastModified)`,
but `updateFeedMeta` is declared with the three parameters
`(feedDocument, meta, lastModified)`.  Under JavaScript call semantics the
third parameter `lastModified` receives the *feed URL* and the fourth
argument (the Last-Modified token taken from the HTTP response) is
silently discarded. -/
def saveOrUpdateFeedMetaOnExisting (d : FeedDoc) (m : FeedMeta) (url : String)
    (_lastModified : JSVal) : FeedDoc :=
  updateFeedMeta d m (.str url)

/-- A stored `Article` document (mongoose `articleSchema`,
src/main.js lines 29-45). -/
structure ArticleDoc where
  title : JSVal
  description : JSVal
  link : JSVal
  origLink : JSVal
  date : Option Int
  pubDate : Option Int
  author : JSVal
  guid : JSVal
  comments : JSVal
  image : ImagePair
  categories : List String
  source : SourcePair
  enclosures : List Enclosure
  feed : String
  savedAt : Int
deriving DecidableEq

/-- A parsed article record as emitted by feedparser's readable stream
(the fields src/main.js reads from it). -/
structure ParsedArticle where
  title : JSVal
  description : JSVal
  link : JSVal
  origLink : JSVal
  date : Option Int
  pubDate : Option Int
  author : JSVal
  guid : JSVal
  comments : JSVal
  image : ImagePair
  categories : List String
  source : SourcePair
  enclosures : List Enclosure
deriving DecidableEq

/-- JavaScript property access `a.url` where `a` is the `enclosures`
*array*: a JS `Array` has no `url` property, so the access yields
`undefined` regardless of the array's elements.  Used by
`articleRequiresUpdate` (src/main.js line 392). -/
def enclosuresUrlProp (_ : List Enclosure) : JSVal := JSVal.undef

/-- JavaScript property access `a.type` on the `enclosures` array:
likewise `undefined` (src/main.js line 393). -/
def enclosuresTypeProp (_ : List Enclosure) : JSVal := JSVal.undef

/-- `articleRequiresUpdate(articleDocument, article)`
(src/main.js lines 376-400).  Same conjunctive all-fields-must-differ
shape as `feedRequiresUpdate`, but the last three conjuncts read the
properties `url`, `type`, `length` of the `enclosures` *arrays*
themselves: `.url` and `.type` are `undefined` on both sides (so that
conjunct is always false), and `.length` is the JS array length
(a number, compared numerically). -/
def articleRequiresUpdate (d : ArticleDoc) (a : ParsedArticle) : Bool :=
  jsNeqB d.title a.title &&
  jsNeqB d.description a.description &&
  jsNeqB d.link a.link &&
  jsNeqB d.origLink a.origLink &&
  jsNeqB d.author a.author &&
  jsNeqB d.guid a.guid &&
  jsNeqB d.comments a.comments &&
  jsNeqB d.image.title a.image.title &&
  jsNeqB d.image.url a.image.url &&
  (jsonStringifyArr d.categories != jsonStringifyArr a.categories) &&
  jsNeqB d.source.title a.source.title &&
  jsNeqB d.source.url a.source.url &&
  jsNeqB (enclosuresUrlProp d.enclosures) (enclosuresUrlProp a.enclosures) &&
  jsNeqB (enclosuresTypeProp d.enclosures) (enclosuresTypeProp a.enclosures) &&
  (d.enclosures.length != a.enclosures.length)

/-- `updateArticle(articleDocument, article)` (src/main.js lines 348-374):
if `articleRequiresUpdate` holds, assign fields and save, else no-op.
The assignment list is copy-pasted from `updateFeedMeta`: besides the
fields below, the source also assigns `xmlUrl`, `language`, `favicon`,
`copyright` and `generator`, but those paths do not exist in
`articleSchema`, so mongoose (strict mode, the default) discards them;
they are therefore not part of the stored document modelled here.
The source does NOT assign `origLink`, `guid`, `comments`, `source`,
`enclosures`, `feed` or `savedAt`. -/
def updateArticle (d : ArticleDoc) (a : ParsedArticle) : ArticleDoc :=
  if articleRequiresUpdate d a then
    { d with
      title := a.title
      description := a.description
      link := a.link
      date := a.date
      pubDate := a.pubDate
      author := a.author
      image := a.image
      categories := a.categories }
  else d

/-- `createArticleDocument(article, url)` (src/main.js lines 402-410);
`now` is the value of `new Date()` at creation time, stored into
`savedAt`. -/
def createArticleDocument (a : ParsedArticle) (url : String) (now : Int) : ArticleDoc :=
  { title := a.title
    description := a.description
    link := a.link
    origLink := a.origLink
    date := a.date
    pubDate := a.pubDate
    author := a.author
    guid := a.guid
    comments := a.comments
    image := a.image
    categories := a.categories
    source := a.source
    enclosures := a.enclosures
    feed := url
    savedAt := now }

/-- MongoDB `$lt` test on the article's `date` field: a missing (`None`)
date never satisfies `$lt`. -/
def dateLtB (d : Option Int) (cutoff : Int) : Bool :=
  match d with
  | some t => decide (t < cutoff)
  | none => false

/-- `removeArticlesOlderThan(days)` (src/main.js lines 118-127):
computes `oldArticleDate = now - days` (in days) and removes every
article matching `{ date: { $lt: oldArticleDate } }`.  Note the query
field is `date` (the parsed publish/update date), NOT `savedAt`.
`now` is the value of `new Date()`; `setDate(getDate()-days)` is
modelled as subtracting `days * 86400000` ms. -/
def removeArticlesOlderThan (now : Int) (days : Int) (arts : List ArticleDoc) :
    List ArticleDoc :=
  let oldArticleDate := now - days * 86400000
  arts.filter (fun a => !(dateLtB a.date oldArticleDate))

/-- A raw byte payload (node `Buffer`). -/
def Buffer := List Nat
deriving DecidableEq

/-- `getBufferAsUtf8Buffer(buffer)` (src/main.js lines 201-210),
parameterized over the external collaborators:
`detect` is `chardet.detect` (returns an encoding name, or `null = none`
when detection fails); `decode` is `iconv.decode` which *throws*
(`Except.error`) on an unsupported or `null` encoding; `encode` is
`iconv.encode(s, 'utf8')` which is total.  The source has no
`try`/`catch`, so a `decode` exception propagates to the caller —
modelled by returning the `Except.error` unhandled. -/
def getBufferAsUtf8Buffer (detect : Buffer → Option String)
    (decode : Buffer → Option String → Except String String)
    (encode : String → Buffer) (buffer : Buffer) : Except String Buffer :=
  let encoding := detect buffer
  if encoding ≠ some "UTF-8" then
    match decode buffer encoding with
    | .ok decodedString => .ok (encode decodedString)
    | .error e => .error e
  else
    .ok buffer

/-- The whole stored state: the `Feed` and `Article` collections. -/
structure Store where
  feeds : List FeedDoc
  articles : List ArticleDoc

/-- `Feed.count({ _id: url })`: number of stored feeds whose `_id` is `url`. -/
def countFeed (feeds : List FeedDoc) (url : String) : Nat :=
  feeds.countP (fun d => decide (d.feedId = url))

/-- `Feed.findOne({ _id: url })`: first stored feed with `_id = url`. -/
def findFeed (feeds : List FeedDoc) (url : String) : Option FeedDoc :=
  feeds.find? (fun d => decide (d.feedId = url))

/-- Saving a fetched mongoose document writes it back in place: replace the
first list element satisfying `p` by its image under `f`. -/
def updateFirst {α : Type} (p : α → Bool) (f : α → α) : List α → List α
  | [] => []
  | d :: rest => if p d then f d :: rest else d :: updateFirst p f rest

/-- MongoDB equality test of a query value `q` against a stored field `f`
(as mongoose casts it for `findOne({ guid: ..., feed: ... })`):
a `null` query value matches `null` or missing fields; an `undefined`
query value is stripped from the criteria by mongoose (matches anything);
a string matches only the same string. -/
def mongoEqB (q f : JSVal) : Bool :=
  match q with
  | .undef => true
  | .nullV =>
    match f with
    | .str _ => false
    | _ => true
  | .str s =>
    match f with
    | .str t => s == t
    | _ => false

/-- `Article.findOne({ guid: article.guid, feed: url })`
(src/main.js line 318). -/
def findArticle (arts : List ArticleDoc) (g : JSVal) (url : String) :
    Option ArticleDoc :=
  arts.find? (fun d => mongoEqB g d.guid && decide (d.feed = url))

/-- `saveOrUpdateArticle(article, url)` (src/main.js lines 317-332) acting
on the article collection: create when no `(guid, feed)` match exists
(stamping `savedAt := now`), else update the matched document in place. -/
def saveOrUpdateArticleRun (now : Int) (arts : List ArticleDoc) (url : String)
    (a : ParsedArticle) : List ArticleDoc :=
  match findArticle arts a.guid url with
  | none => arts ++ [createArticleDocument a url now]
  | some _ =>
    updateFirst (fun d => mongoEqB a.guid d.guid && decide (d.feed = url))
      (fun d => updateArticle d a) arts

/-- `saveOrUpdateFeedMeta(meta, url, lastModified)`
(src/main.js lines 228-242) acting on the feed collection: create when no
feed with `_id = url` exists, else run the (arity-mismatched) call
`updateFeedMeta(feedDocument, meta, url, lastModified)` — the stored
document's `lastModified` parameter position receives the *url*
(see `saveOrUpdateFeedMetaOnExisting`). -/
def saveOrUpdateFeedMetaRun (feeds : List FeedDoc) (m : FeedMeta) (url : String)
    (lastModified : JSVal) : List FeedDoc :=
  match findFeed feeds url with
  | none => feeds ++ [createFeedDocument m url lastModified]
  | some _ =>
    updateFirst (fun d => decide (d.feedId = url))
      (fun d => saveOrUpdateFeedMetaOnExisting d m url lastModified) feeds

/-- The event sequence one feedparser run delivered: at most one `meta`
event (emitted before any article), the article events that arrived, and
whether the `end` event fired (it does not fire after a parse error). -/
structure ParseResult where
  metaEvent : Option FeedMeta
  articles : List ParsedArticle
  reachedEnd : Bool

/-- Outcome of the `request(...)` HTTP call: a transport error, or a
response with status code, headers and raw body bytes. -/
inductive FetchResult where
  | transportErr (e : String)
  | response (status : Nat) (headers : List (String × String)) (body : Buffer)

/-- `getLastModifiedFromResponseHeaders(headers)`
(src/main.js lines 216-226): scan all headers, case-insensitive name
comparison, later occurrences overwrite earlier ones; `null` when absent.
The JS variable starts as `null`, hence `JSVal.nullV`. -/
def getLastModifiedFromResponseHeaders (headers : List (String × String)) : JSVal :=
  headers.foldl
    (fun acc h => if h.1.toLower = "last-modified" then .str h.2 else acc)
    .nullV

/-- The external collaborators and ambient inputs of one
`addFeed`/fetch cycle: possible storage-read failures, the clock, the
chardet/iconv collaborators, the grammar parser, and the HTTP transport
(which receives the optional `If-Modified-Since` header value). -/
structure Env where
  countError : Option String
  lmError : Option String
  now : Int
  detect : Buffer → Option String
  iconvDecode : Buffer → Option String → Except String String
  iconvEncode : String → Buffer
  parse : Buffer → ParseResult
  fetch : Option String → FetchResult

/-- Reconciliation of one parse-event sequence against the store
(the `meta` and `readable` handlers of src/main.js lines 176-187):
the metadata event (if any) is reconciled first, then each article event
in arrival order.  Article reconciliation touches only the article
collection, feed-metadata reconciliation only the feed collection. -/
def applyParseResult (now : Int) (store : Store) (url : String)
    (lastModified : JSVal) (pr : ParseResult) : Store :=
  { feeds :=
      match pr.metaEvent with
      | none => store.feeds
      | some m => saveOrUpdateFeedMetaRun store.feeds m url lastModified
    articles :=
      pr.articles.foldl (fun arts a => saveOrUpdateArticleRun now arts url a)
        store.articles }

/-- `handleResponse(url, error, response, body, callback)`
(src/main.js lines 154-199) as a transition on the store; the returned
`Bool` records whether the done-callback was invoked (it is invoked
exactly by the parser's `end` handler).  Transport error: log only.
Status 200: extract the Last-Modified token, normalize the body encoding
(an exception there propagates out of the handler: no events, no
callback), then parse and reconcile.  Status 304: the empty branch —
nothing happens.  Any other status: log only. -/
def handleResponseRun (env : Env) (store : Store) (url : String)
    (res : FetchResult) : Store × Bool :=
  match res with
  | .transportErr _ => (store, false)
  | .response status headers body =>
    if status = 200 then
      match getBufferAsUtf8Buffer env.detect env.iconvDecode env.iconvEncode body with
      | .error _ => (store, false)
      | .ok buf =>
        (applyParseResult env.now store url
          (getLastModifiedFromResponseHeaders headers) (env.parse buf),
         (env.parse buf).reachedEnd)
    else if status = 304 then
      (store, false)
    else
      (store, false)

/-- The `If-Modified-Since` header value `requestAndParseFeed`
(src/main.js lines 129-148) attaches: the stored feed's `lastModified`
when the `findOne` projection succeeds, the document exists, and its
`lastModified` is not loosely-`null`; otherwise no header.  On a
`findOne` error the source only logs and still issues the request. -/
def ifModifiedSinceHeader (env : Env) (store : Store) (url : String) :
    Option String :=
  match env.lmError with
  | some _ => none
  | none =>
    match findFeed store.feeds url with
    | some d =>
      match d.lastModified with
      | .str s => some s
      | _ => none
    | none => none

/-- `requestAndParseFeed(url, callback)` (src/main.js lines 129-148):
compute the conditional-request header, issue the fetch, hand the result
to `handleResponse`. -/
def requestAndParseFeedRun (env : Env) (store : Store) (url : String) :
    Store × Bool :=
  handleResponseRun env store url (env.fetch (ifModifiedSinceHeader env store url))

/-- `addFeed(url, callback)` (src/main.js lines 70-91): count the stored
feeds with `_id = url`.  On a count error: log only.  Count 0: fetch and
parse.  Count 1: warn and skip.  Any other count: error log and skip.
The `Bool` records whether the done-callback ran. -/
def addFeedRun (env : Env) (store : Store) (url : String) : Store × Bool :=
  match env.countError with
  | some _ => (store, false)
  | none =>
    if countFeed store.feeds url = 0 then
      requestAndParseFeedRun env store url
    else
      (store, false)

/-- A sequence of `addFeed` calls (each with its own collaborator
behaviour), applied left to right. -/
def runAddFeeds (calls : List (Env × String)) (store : Store) : Store :=
  calls.foldl (fun st c => (addFeedRun c.1 st c.2).1) store

/-- Invariant: at most one stored Feed per URL. -/
def UniqueFeedUrls (store : Store) : Prop :=
  ∀ u : String, countFeed store.feeds u ≤ 1

/-!
### The keyword-search regex (`createQueryForArticles`, src/main.js 456-484)

The source builds the JavaScript regular expression

  new RegExp('.*(^|' + A + ')+' + keyword + '(' + A + '|$)+.*', 'i')

where `A` is the alternation written in the source as the string literal
`'\\s|\\.|\,|\!|\\?|:|-|_|\'|"|@|#|\$|%|&|\\(|\\)|\\[|\\]|{|}|\\+'`.
After JavaScript string-literal unescaping the regex source of `A` is

  \s|\.|,|!|\?|:|-|_|'|"|@|#|$|%|&|\(|\)|\[|\]|{|}|\+

i.e. the whitespace class `\s`, twenty literal punctuation characters
(`{` and `}` are literal in a JS regex when not part of a quantifier),
and — because `'\$'` unescapes to a bare `$` — the *end-of-input anchor*,
not a literal dollar sign.  The expression carries the `i`
(case-insensitive) flag and no `m`/`s` flags, so `^`/`$` anchor the whole
input and `.` does not match line terminators.  MongoDB applies the regex
as an unanchored search.  We embed the exact pattern as a regex AST
(`Reg`) with a standard positional matching semantics (`RMatch`).
-/

/-- JavaScript `\s` class membership (the WhiteSpace and LineTerminator
code points of the ECMAScript spec). -/
def isJsWs (c : Char) : Bool :=
  let n := c.toNat
  n = 9 || n = 10 || n = 11 || n = 12 || n = 13 || n = 32 || n = 160 ||
  n = 0x1680 || (0x2000 ≤ n && n ≤ 0x200a) || n = 0x2028 || n = 0x2029 ||
  n = 0x202f || n = 0x205f || n = 0x3000 || n = 0xfeff

/-- JavaScript line terminators, which `.` (without the `s` flag) does not
match. -/
def isLineTermB (c : Char) : Bool :=
  let n := c.toNat
  n = 10 || n = 13 || n = 0x2028 || n = 0x2029

/-- The twenty literal punctuation delimiters of the source's alternation,
in source order (the `'` `"` `{` `}` characters are written via their
code points 39, 34, 123, 125). -/
def delimChars : List Char :=
  ['.', ',', '!', '?', ':', '-', '_', Char.ofNat 39, Char.ofNat 34, '@', '#',
   '%', '&', '(', ')', '[', ']', Char.ofNat 123, Char.ofNat 125, '+']

/-- A character is a search delimiter: JS whitespace or one of the listed
punctuation characters. -/
def isDelimCharB (c : Char) : Bool :=
  isJsWs c || decide (c ∈ delimChars)

/-- Regex AST, covering exactly the constructs of the source pattern:
`.` , a case-insensitive literal, the `\s` class, the `^` and `$`
anchors, the empty regex, concatenation, alternation and Kleene star. -/
inductive Reg where
  | dotR
  | litCI (c : Char)
  | wsR
  | bolR
  | eolR
  | epsR
  | catR (r1 r2 : Reg)
  | altR (r1 r2 : Reg)
  | starR (r : Reg)
deriving DecidableEq

/-- Right-nested alternation of a nonempty list of alternatives
(regex alternation is associative; the source's `A` is a flat
`|`-separated list). -/
def altListReg1 (r : Reg) (rs : List Reg) : Reg :=
  match rs with
  | [] => r
  | r' :: rest => .altR r (altListReg1 r' rest)

/-- `r+` is `r` followed by `r*` (JS semantics). -/
def plusR (r : Reg) : Reg := .catR r (.starR r)

/-- The keyword spliced into the pattern as a sequence of
case-insensitive literals. -/
def litStr (k : List Char) : Reg :=
  k.foldr (fun c acc => .catR (.litCI c) acc) .epsR

/-- The alternation `A` of the source (see the section comment), in
source order: `\s`, the punctuation literals, and — at the `\$`
position — the `$` anchor. -/
def delimAltTail : List Reg :=
  [.litCI '.', .litCI ',', .litCI '!', .litCI '?', .litCI ':', .litCI '-',
   .litCI '_', .litCI (Char.ofNat 39), .litCI (Char.ofNat 34), .litCI '@',
   .litCI '#', .eolR, .litCI '%', .litCI '&', .litCI '(', .litCI ')',
   .litCI '[', .litCI ']', .litCI (Char.ofNat 123), .litCI (Char.ofNat 125),
   .litCI '+']

/-- The full source alternation `A`: `\s` first, then `delimAltTail`. -/
def delimAltReg : Reg :=
  altListReg1 .wsR delimAltTail

/-- The full pattern `.*(^|A)+ k (A|$)+.*` built by
`createQueryForArticles` for keyword `k`. -/
def searchTermReg (k : List Char) : Reg :=
  .catR (.starR .dotR)
  (.catR (plusR (.altR .bolR delimAltReg))
  (.catR (litStr k)
  (.catR (plusR (.altR delimAltReg .eolR))
  (.starR .dotR))))

/-- Positional matching semantics: `RMatch s r i j` holds when `r`
matches the segment of `s` from position `i` (inclusive) to `j`
(exclusive).  The subject `s` is fixed so the `^`/`$` anchors can refer
to its ends; literals compare case-insensitively (`i` flag) via
`Char.toLower`; `.` refuses line terminators (no `s` flag). -/
inductive RMatch (s : List Char) : Reg → Nat → Nat → Prop where
  | dot {i c} : s[i]? = some c → isLineTermB c = false →
      RMatch s .dotR i (i + 1)
  | lit {i c x} : s[i]? = some x → x.toLower = c.toLower →
      RMatch s (.litCI c) i (i + 1)
  | wsc {i x} : s[i]? = some x → isJsWs x = true →
      RMatch s .wsR i (i + 1)
  | bolM : RMatch s .bolR 0 0
  | eolM : RMatch s .eolR s.length s.length
  | epsM {i} : RMatch s .epsR i i
  | catM {r1 r2 i j k} : RMatch s r1 i j → RMatch s r2 j k →
      RMatch s (.catR r1 r2) i k
  | altL {r1 r2 i j} : RMatch s r1 i j → RMatch s (.altR r1 r2) i j
  | altRt {r1 r2 i j} : RMatch s r2 i j → RMatch s (.altR r1 r2) i j
  | starNil {r i} : RMatch s (.starR r) i i
  | starCons {r i j k} : RMatch s r i j → RMatch s (.starR r) j k →
      RMatch s (.starR r) i k

/-- MongoDB applies a `$regex` criterion as an unanchored search: the
document field matches when the pattern matches some segment. -/
def regexTestP (r : Reg) (s : List Char) : Prop :=
  ∃ i j, RMatch s r i j

/-- Case-insensitive comparison of the `k.length` characters of `s`
starting at position `p` against `k`; false when `s` is too short. -/
def sliceEqCI (s : List Char) (k : List Char) (p : Nat) : Bool :=
  match k with
  | [] => true
  | c :: k' =>
    (match s[p]? with
     | some x => x.toLower == c.toLower
     | none => false) && sliceEqCI s k' (p + 1)

/-- The claim's boundary condition at one position: the keyword occurs
(case-insensitively) at `p` and is bounded on the left by the string
start or a delimiter character, and on the right by the string end or a
delimiter character. -/
def boundaryOccurAt (s k : List Char) (p : Nat) : Bool :=
  sliceEqCI s k p &&
  (p = 0 || (s[p - 1]?).any isDelimCharB) &&
  (p + k.length = s.length || (s[p + k.length]?).any isDelimCharB)

/-- The claim's matching predicate: some delimiter-bounded
case-insensitive occurrence of the keyword exists. -/
def boundaryOccurB (s k : List Char) : Bool :=
  (List.range (s.length + 1)).any (boundaryOccurAt s k)

/-- A MongoDB `$regex` criterion against a stored field: only string
fields can match. -/
def fieldRegexTest (r : Reg) (f : JSVal) : Prop :=
  ∃ s : String, f = .str s ∧ regexTestP r s.data

/-- The criteria document built by `createQueryForArticles(keyword,
options)` (src/main.js lines 456-484) as a predicate on a stored
article: the search regex is applied with `$or` across `title`,
`description` and `author`, and the optional `options.from`/`options.to`
bounds constrain `savedAt` inclusively. -/
def articleMatchesCriteria (k : List Char) (fromOpt toOpt : Option Int)
    (d : ArticleDoc) : Prop :=
  (fieldRegexTest (searchTermReg k) d.title ∨
   fieldRegexTest (searchTermReg k) d.description ∨
   fieldRegexTest (searchTermReg k) d.author) ∧
  (match fromOpt with | none => True | some t => t ≤ d.savedAt) ∧
  (match toOpt with | none => True | some t => d.savedAt ≤ t)

/-!
### Claim-side predicates and concrete inputs used by the theorems
-/

/-- The claim's compared-field condition for a feed: every compared field
(title, description, link, source URL, author, language, image title,
image URL, favicon, copyright, generator, serialized category set,
revalidation token) differs between stored and parsed values. -/
def FeedComparedAllDiffer (d : FeedDoc) (m : FeedMeta) (lastModified : JSVal) : Prop :=
  jsEqB d.title m.title = false ∧
  jsEqB d.description m.description = false ∧
  jsEqB d.link m.link = false ∧
  jsEqB d.xmlUrl m.xmlUrl = false ∧
  jsEqB d.author m.author = false ∧
  jsEqB d.language m.language = false ∧
  jsEqB d.image.title m.image.title = false ∧
  jsEqB d.image.url m.image.url = false ∧
  jsEqB d.favicon m.favicon = false ∧
  jsEqB d.copyright m.copyright = false ∧
  jsEqB d.generator m.generator = false ∧
  jsonStringifyArr d.categories ≠ jsonStringifyArr m.categories ∧
  jsEqB d.lastModified lastModified = false

/-- A stored feed document used as concrete input. -/
def exFeedDoc : FeedDoc :=
  { feedId := "http://example.org/feed"
    title := .str "Same Title"
    description := .str "Old description"
    link := .str "http://old.example/"
    xmlUrl := .str "http://old.example/rss"
    date := none
    pubDate := none
    author := .str "Old Author"
    language := .str "en"
    image := ⟨.str "Old image", .str "http://old.example/i.png"⟩
    favicon := .str "http://old.example/f.ico"
    copyright := .str "Old copyright"
    generator := .str "OldGen"
    categories := ["old"]
    lastModified := .str "Mon, 01 Jan 2018 00:00:00 GMT" }

/-- Parsed metadata agreeing with `exFeedDoc` on the title only. -/
def exMetaSameTitle : FeedMeta :=
  { title := .str "Same Title"
    description := .str "New description"
    link := .str "http://new.example/"
    xmlUrl := .str "http://new.example/rss"
    date := some 1
    pubDate := some 1
    author := .str "New Author"
    language := .str "de"
    image := ⟨.str "New image", .str "http://new.example/i.png"⟩
    favicon := .str "http://new.example/f.ico"
    copyright := .str "New copyright"
    generator := .str "NewGen"
    categories := ["new"] }

/-- Parsed metadata differing from `exFeedDoc` on every compared field. -/
def exMetaAllNew : FeedMeta :=
  { exMetaSameTitle with title := .str "New Title" }

/-- The revalidation token of the concrete HTTP 200 response. -/
def exTok : String := "Sat, 01 Jan 2022 00:00:00 GMT"

/-- A stored article document used as concrete input. -/
def exArticleDoc : ArticleDoc :=
  { title := .str "Old title"
    description := .str "Old description"
    link := .str "http://old.example/a"
    origLink := .str "http://old.example/orig"
    date := none
    pubDate := none
    author := .str "Old Author"
    guid := .str "guid-1"
    comments := .str "http://old.example/comments"
    image := ⟨.str "Old image", .str "http://old.example/i.png"⟩
    categories := ["old"]
    source := ⟨.str "Old Source", .str "http://old.example/src"⟩
    enclosures := [⟨.str "http://old.example/e.mp3", .str "audio/mpeg", .str "100"⟩]
    feed := "http://example.org/feed"
    savedAt := 1000 }

/-- A parsed article event differing from `exArticleDoc` on every field of
the claim's compared set (its `guid` is `undefined`, which mongoose strips
from the `findOne` criteria, so the event still matches the stored
article's `(guid, feed)` lookup, and `undefined != 'guid-1'` holds). -/
def exParsedArticle : ParsedArticle :=
  { title := .str "New title"
    description := .str "New description"
    link := .str "http://new.example/a"
    origLink := .str "http://new.example/orig"
    date := some 2
    pubDate := some 2
    author := .str "New Author"
    guid := .undef
    comments := .str "http://new.example/comments"
    image := ⟨.str "New image", .str "http://new.example/i.png"⟩
    categories := ["new"]
    source := ⟨.str "New Source", .str "http://new.example/src"⟩
    enclosures := [⟨.str "http://new.example/e.ogg", .str "audio/ogg", .str "200"⟩, ⟨.str "http://new.example/e2.ogg", .str "audio/ogg", .str "300"⟩] }

/-- `new Date()` at the moment `removeArticlesOlderThan` runs: day 1000. -/
def exNow : Int := 86400000000

/-- An article first seen (saved) at `exNow` itself, whose parsed `date`
field is ancient (epoch). -/
def exFreshSavedOldDated : ArticleDoc :=
  { exArticleDoc with date := some 0, savedAt := exNow }

/-- A chardet collaborator whose detection fails (returns `null`). -/
def exDetectFail : Buffer → Option String := fun _ => none

/-- A chardet collaborator that reports UTF-8. -/
def exDetectUtf8 : Buffer → Option String := fun _ => some "UTF-8"

/-- An iconv-lite `decode` collaborator exhibiting the library's
documented behaviour of throwing `Encoding not recognized` for an
unsupported (here: `null`, i.e. undetectable) encoding label. -/
def exDecodeThrows : Buffer → Option String → Except String String :=
  fun _ enc =>
    match enc with
    | none => .error "Encoding not recognized: null"
    | some _ => .ok ""

/-- An iconv-lite `encode(s, 'utf8')` collaborator. -/
def exEncodeUtf8 : String → Buffer := fun _ => []

/-- A concrete raw byte payload. -/
def exBuf : Buffer := [255, 254, 0]

/-- A fully successful collaborator environment: no storage errors,
UTF-8 detection, a fetch answering HTTP 200, and a parse run that
reaches its `end` event without events. -/
def exEnv : Env :=
  { countError := none
    lmError := none
    now := 0
    detect := exDetectUtf8
    iconvDecode := exDecodeThrows
    iconvEncode := exEncodeUtf8
    parse := fun _ => { metaEvent := none, articles := [], reachedEnd := true }
    fetch := fun _ => .response 200 [] [] }

/-- A store already holding `exFeedDoc`. -/
def exStoreWithFeed : Store := { feeds := [exFeedDoc], articles := [] }

/-- The keyword of the claim's concrete search cases. -/
def fooKeyword : List Char := ['F', 'o', 'o']

/-- Stored article titled `Read Foo Bar` (matched by keyword `Foo`). -/
def exArticleReadFooBar : ArticleDoc :=
  { exArticleDoc with
    title := .str "Read Foo Bar"
    description := .str "irrelevant"
    author := .str "irrelevant" }

/-- Stored article titled `Foobartech` (not matched by keyword `Foo`). -/
def exArticleFoobartech : ArticleDoc :=
  { exArticleDoc with
    title := .str "Foobartech"
    description := .str "irrelevant"
    author := .str "irrelevant" }


/-!
## Theorems
-/

/-- Helper: `updateFeedMeta` never changes the document key. -/
theorem updateFeedMeta_feedId (d : FeedDoc) (m : FeedMeta) (lm : JSVal) :
    (updateFeedMeta d m lm).feedId = d.feedId := by
  unfold updateFeedMeta
  split <;> rfl

/-- C1: the feed update is applied only when every compared field (title,
description, link, source URL, author, language, image title, image URL,
favicon, copyright, generator, serialized category set, revalidation
token) simultaneously differs between the stored document and the values
handed to `updateFeedMeta`; if even one compared field is equal, the
predicate is false and the stored feed document is left entirely
unmodified. -/
theorem feed_update_requires_all_fields_differ :
    ∀ (d : FeedDoc) (m : FeedMeta) (lastModified : JSVal),
      (feedRequiresUpdate d m lastModified = true ↔
        FeedComparedAllDiffer d m lastModified) ∧
      (¬ FeedComparedAllDiffer d m lastModified →
        updateFeedMeta d m lastModified = d) := by
  intro d m lastModified
  have hiff : feedRequiresUpdate d m lastModified = true ↔
      FeedComparedAllDiffer d m lastModified := by
    simp [feedRequiresUpdate, FeedComparedAllDiffer, jsNeqB,
      Bool.and_eq_true, Bool.not_eq_true', bne_iff_ne, and_assoc]
  refine ⟨hiff, fun hne => ?_⟩
  have hfalse : feedRequiresUpdate d m lastModified = false := by
    cases hb : feedRequiresUpdate d m lastModified with
    | false => rfl
    | true => exact absurd (hiff.mp hb) hne
  unfold updateFeedMeta
  simp [hfalse]

/-- Witness for C1: with parsed metadata agreeing with the stored feed on
the title alone, the stored feed is left unmodified. -/
theorem feed_update_requires_all_fields_differ_witness :
    updateFeedMeta exFeedDoc exMetaSameTitle (.str exTok) = exFeedDoc :=
  (feed_update_requires_all_fields_differ exFeedDoc exMetaSameTitle (.str exTok)).2
    (fun h => absurd h.1 (by decide))

/-- C2 (code bug exhibit): a stored article and a parsed article event
that the code's own `(guid, feed)` lookup pairs together, on which every
field of the claim's compared set differs — title, description, link,
author, guid, comments, image title/URL, serialized category set, source
title/URL, and the per-enclosure URL / MIME type / length values — yet
`articleRequiresUpdate` is false (its `enclosures.url` / `enclosures.type`
conjuncts read properties of the arrays themselves, `undefined` on both
sides) and `updateArticle` leaves the stored article entirely
unchanged, contradicting the claim's "overwritten exactly when every one
of those fields differs". -/
theorem article_update_never_fires :
    findArticle [exArticleDoc] exParsedArticle.guid "http://example.org/feed" =
      some exArticleDoc ∧
    jsNeqB exArticleDoc.title exParsedArticle.title = true ∧
    jsNeqB exArticleDoc.description exParsedArticle.description = true ∧
    jsNeqB exArticleDoc.link exParsedArticle.link = true ∧
    jsNeqB exArticleDoc.origLink exParsedArticle.origLink = true ∧
    jsNeqB exArticleDoc.author exParsedArticle.author = true ∧
    jsNeqB exArticleDoc.guid exParsedArticle.guid = true ∧
    jsNeqB exArticleDoc.comments exParsedArticle.comments = true ∧
    jsNeqB exArticleDoc.image.title exParsedArticle.image.title = true ∧
    jsNeqB exArticleDoc.image.url exParsedArticle.image.url = true ∧
    jsonStringifyArr exArticleDoc.categories ≠
      jsonStringifyArr exParsedArticle.categories ∧
    jsNeqB exArticleDoc.source.title exParsedArticle.source.title = true ∧
    jsNeqB exArticleDoc.source.url exParsedArticle.source.url = true ∧
    exArticleDoc.enclosures.map Enclosure.url ≠
      exParsedArticle.enclosures.map Enclosure.url ∧
    exArticleDoc.enclosures.map Enclosure.etype ≠
      exParsedArticle.enclosures.map Enclosure.etype ∧
    exArticleDoc.enclosures.map Enclosure.elength ≠
      exParsedArticle.enclosures.map Enclosure.elength ∧
    exArticleDoc.enclosures.length ≠ exParsedArticle.enclosures.length ∧
    articleRequiresUpdate exArticleDoc exParsedArticle = false ∧
    updateArticle exArticleDoc exParsedArticle = exArticleDoc := by
  decide

/-- C3 (code bug exhibit): a stored feed and parsed metadata for which the
code's update predicate fires, together with the revalidation token
`exTok` extracted from the HTTP 200 response; after the update branch of
`saveOrUpdateFeedMeta` runs, the stored `lastModified` field holds the
*feed URL*, not the extracted token — the arity-mismatched call
`updateFeedMeta(feedDocument, meta, url, lastModified)` binds `url` to the
function's `lastModified` parameter and discards the real token. -/
theorem feed_update_stores_url_as_token :
    feedRequiresUpdate exFeedDoc exMetaAllNew (.str "http://example.org/feed") = true ∧
    (saveOrUpdateFeedMetaOnExisting exFeedDoc exMetaAllNew
        "http://example.org/feed" (.str exTok)).lastModified =
      .str "http://example.org/feed" ∧
    (saveOrUpdateFeedMetaOnExisting exFeedDoc exMetaAllNew
        "http://example.org/feed" (.str exTok)).lastModified ≠ .str exTok := by
  decide

/-- C4 (counterexample): `removeArticlesOlderThan` filters on the parsed
`date` field, not on the storage timestamp.  The concrete article was
stored at the current instant (`savedAt = exNow`, so NOT strictly earlier
than now − 7 days), yet the operation deletes it because its parsed
`date` is ancient. -/
theorem remove_by_age_deletes_fresh_savedAt :
    removeArticlesOlderThan exNow 7 [exFreshSavedOldDated] = [] ∧
    exFreshSavedOldDated.savedAt = exNow ∧
    ¬ (exFreshSavedOldDated.savedAt < exNow - 7 * 86400000) := by
  decide

/-- C4 (amended): for every day count `d`, the operation deletes exactly
the stored articles whose parsed `date` field is present and strictly
earlier than now − d days, and no others. -/
theorem remove_by_age_filters_on_date :
    ∀ (now days : Int) (arts : List ArticleDoc) (a : ArticleDoc),
      a ∈ removeArticlesOlderThan now days arts ↔
        a ∈ arts ∧ ¬ (∃ t, a.date = some t ∧ t < now - days * 86400000) := by
  intro now days arts a
  simp only [removeArticlesOlderThan, List.mem_filter, Bool.not_eq_true']
  cases ha : a.date with
  | none => simp [dateLtB, ha]
  | some t => simp [dateLtB, ha]

/-- C6 (counterexample): a payload whose encoding detection fails
(chardet returns `null`): iconv-lite's decode throws
`Encoding not recognized`, the source has no `try`/`catch`, so the
exception propagates to the caller instead of the original bytes being
returned unchanged. -/
theorem encoding_error_propagates :
    getBufferAsUtf8Buffer exDetectFail exDecodeThrows exEncodeUtf8 exBuf =
      .error "Encoding not recognized: null" ∧
    getBufferAsUtf8Buffer exDetectFail exDecodeThrows exEncodeUtf8 exBuf ≠
      .ok exBuf := by
  decide

/-- C6 (amended): for every detector/codec collaborator and payload, when
detection reports UTF-8 the input bytes are passed through unchanged;
otherwise the payload is decoded with the detected encoding and
re-encoded as UTF-8, and a decode exception propagates to the caller
(the original bytes are not returned). -/
theorem encoding_passthrough_or_propagate :
    ∀ (detect : Buffer → Option String)
      (decode : Buffer → Option String → Except String String)
      (encode : String → Buffer) (b : Buffer),
      (detect b = some "UTF-8" →
        getBufferAsUtf8Buffer detect decode encode b = .ok b) ∧
      (detect b ≠ some "UTF-8" →
        (∀ s, decode b (detect b) = .ok s →
          getBufferAsUtf8Buffer detect decode encode b = .ok (encode s)) ∧
        (∀ e, decode b (detect b) = .error e →
          getBufferAsUtf8Buffer detect decode encode b = .error e)) := by
  intro detect decode encode b
  constructor
  · intro h
    simp [getBufferAsUtf8Buffer, h]
  · intro h
    constructor
    · intro s hs
      simp [getBufferAsUtf8Buffer, h, hs]
    · intro e he
      simp [getBufferAsUtf8Buffer, h, he]

/-- Witness for C6 (amended): pass-through on detected UTF-8, propagated
exception on an undetectable encoding, at concrete collaborators. -/
theorem encoding_passthrough_or_propagate_witness :
    getBufferAsUtf8Buffer exDetectUtf8 exDecodeThrows exEncodeUtf8 exBuf = .ok exBuf ∧
    getBufferAsUtf8Buffer exDetectFail exDecodeThrows exEncodeUtf8 exBuf =
      .error "Encoding not recognized: null" :=
  ⟨(encoding_passthrough_or_propagate exDetectUtf8 exDecodeThrows exEncodeUtf8 exBuf).1
      rfl,
   ((encoding_passthrough_or_propagate exDetectFail exDecodeThrows exEncodeUtf8 exBuf).2
      (by decide)).2 "Encoding not recognized: null" rfl⟩

/-- C8: a fetch cycle whose HTTP response has status 304 leaves the store
(feeds and articles) exactly as it was — the 304 branch of
`handleResponse` is empty, so no document is created, updated or
deleted, and the done-callback is not invoked. -/
theorem response_304_no_mutation :
    ∀ (env : Env) (store : Store) (url : String)
      (headers : List (String × String)) (body : Buffer),
      handleResponseRun env store url (.response 304 headers body) =
        (store, false) := by
  intro env store url headers body
  simp [handleResponseRun]

/-- Helper: mapping a function over `updateFirst` is invisible to any
projection the replacement preserves. -/
theorem updateFirst_map_eq {α β : Type} (p : α → Bool) (f : α → α) (g : α → β)
    (hfg : ∀ x, g (f x) = g x) :
    ∀ l : List α, (updateFirst p f l).map g = l.map g := by
  intro l
  induction l with
  | nil => rfl
  | cons d rest ih =>
    unfold updateFirst
    by_cases hp : p d
    · simp [hp, hfg]
    · simp [hp, ih]

/-- C9: the storage timestamp `savedAt` is stamped with the current time
exactly once, by `createArticleDocument`, and is never changed afterwards:
the in-place `updateArticle` preserves it on every input, and a full
`saveOrUpdateArticle` step either leaves the collection's stored
timestamps unchanged or appends the new article's stamp at the end. -/
theorem savedAt_immutable :
    (∀ (d : ArticleDoc) (a : ParsedArticle),
      (updateArticle d a).savedAt = d.savedAt) ∧
    (∀ (a : ParsedArticle) (url : String) (now : Int),
      (createArticleDocument a url now).savedAt = now) ∧
    (∀ (now : Int) (arts : List ArticleDoc) (url : String) (a : ParsedArticle),
      (saveOrUpdateArticleRun now arts url a).map (fun d => d.savedAt) =
          arts.map (fun d => d.savedAt) ∨
      (saveOrUpdateArticleRun now arts url a).map (fun d => d.savedAt) =
          arts.map (fun d => d.savedAt) ++ [now]) := by
  have hupd : ∀ (d : ArticleDoc) (a : ParsedArticle),
      (updateArticle d a).savedAt = d.savedAt := by
    intro d a
    unfold updateArticle
    split <;> rfl
  refine ⟨hupd, fun a url now => rfl, ?_⟩
  intro now arts url a
  unfold saveOrUpdateArticleRun
  cases hf : findArticle arts a.guid url with
  | none =>
    right
    simp [createArticleDocument]
  | some d =>
    left
    exact updateFirst_map_eq _ _ _ (fun x => hupd x a) arts

/-- Helper: `updateFirst` preserves any `countP` whose test the
replacement function preserves. -/
theorem updateFirst_countP {α : Type} (p q : α → Bool) (f : α → α)
    (hf : ∀ x, q (f x) = q x) :
    ∀ l : List α, (updateFirst p f l).countP q = l.countP q := by
  intro l
  induction l with
  | nil => rfl
  | cons d rest ih =>
    unfold updateFirst
    by_cases hp : p d
    · simp [hp, List.countP_cons, hf]
    · simp [hp, List.countP_cons, ih]

/-- Helper: one feed-metadata reconciliation step keeps every URL's feed
count at most one. -/
theorem saveOrUpdateFeedMetaRun_countLe (feeds : List FeedDoc) (m : FeedMeta)
    (url : String) (lm : JSVal) (u : String)
    (h : countFeed feeds u ≤ 1) :
    countFeed (saveOrUpdateFeedMetaRun feeds m url lm) u ≤ 1 := by
  unfold saveOrUpdateFeedMetaRun
  cases hf : findFeed feeds url with
  | none =>
    have hnone : ∀ x ∈ feeds, ¬ (decide (x.feedId = url) = true) :=
      List.find?_eq_none.mp hf
    unfold countFeed at h ⊢
    rw [List.countP_append]
    by_cases hu : u = url
    · subst hu
      have h0 : feeds.countP (fun d => decide (d.feedId = u)) = 0 := by
        apply List.countP_eq_zero.mpr
        intro x hx
        exact hnone x hx
      simp [h0, List.countP_cons, createFeedDocument]
    · have hne : ((createFeedDocument m url lm).feedId = u) = False := by
        simp [createFeedDocument]
        exact fun hc => hu hc.symm
      simp [List.countP_cons, hne]
      exact h
  | some d =>
    have hpres : ∀ x : FeedDoc,
        (fun d => decide (d.feedId = u)) (saveOrUpdateFeedMetaOnExisting x m url lm) =
          (fun d => decide (d.feedId = u)) x := by
      intro x
      simp [saveOrUpdateFeedMetaOnExisting, updateFeedMeta_feedId]
    unfold countFeed at h ⊢
    rw [updateFirst_countP _ _ _ hpres]
    exact h

/-- Helper: a fetch-cycle transition either leaves the feed collection
untouched or applies exactly one `saveOrUpdateFeedMeta` step at the
cycle's URL. -/
theorem handleResponseRun_feeds (env : Env) (store : Store) (url : String)
    (res : FetchResult) :
    (handleResponseRun env store url res).1.feeds = store.feeds ∨
    ∃ m lm, (handleResponseRun env store url res).1.feeds =
      saveOrUpdateFeedMetaRun store.feeds m url lm := by
  unfold handleResponseRun
  cases res with
  | transportErr e => left; rfl
  | response status headers body =>
    by_cases h200 : status = 200
    · simp only [h200, if_pos rfl]
      cases hb : getBufferAsUtf8Buffer env.detect env.iconvDecode env.iconvEncode body with
      | error e => left; rfl
      | ok buf =>
        cases hm : (env.parse buf).metaEvent with
        | none =>
          left
          simp [applyParseResult, hm]
        | some m =>
          right
          exact ⟨m, getLastModifiedFromResponseHeaders headers, by
            simp [applyParseResult, hm]⟩
    · left
      simp only [if_neg h200]
      by_cases h304 : status = 304 <;> simp [h304]

/-- Helper: one `addFeed` call preserves the at-most-one-feed-per-URL
invariant. -/
theorem addFeedRun_preserves_unique (env : Env) (store : Store) (url : String)
    (h : UniqueFeedUrls store) : UniqueFeedUrls (addFeedRun env store url).1 := by
  unfold addFeedRun
  cases env.countError with
  | some e => exact h
  | none =>
    by_cases hc : countFeed store.feeds url = 0
    · simp only [if_pos hc]
      unfold requestAndParseFeedRun
      intro u
      rcases handleResponseRun_feeds env store url
          (env.fetch (ifModifiedSinceHeader env store url)) with heq | ⟨m, lm, heq⟩
      · rw [heq]
        exact h u
      · rw [heq]
        exact saveOrUpdateFeedMetaRun_countLe store.feeds m url lm u (h u)
    · simp only [if_neg hc]
      exact h

/-- C7: adding a URL that is already stored is a no-op that leaves the
whole store (in particular the existing feed) unmodified, a single
`addFeed` call preserves the at-most-one-feed-per-URL invariant, and so
does any sequence of `addFeed` calls. -/
theorem addFeed_no_duplicates :
    (∀ (env : Env) (store : Store) (url : String),
      countFeed store.feeds url ≠ 0 → addFeedRun env store url = (store, false)) ∧
    (∀ (env : Env) (store : Store) (url : String),
      UniqueFeedUrls store → UniqueFeedUrls (addFeedRun env store url).1) ∧
    (∀ (calls : List (Env × String)) (store : Store),
      UniqueFeedUrls store → UniqueFeedUrls (runAddFeeds calls store)) := by
  refine ⟨?_, addFeedRun_preserves_unique, ?_⟩
  · intro env store url h
    unfold addFeedRun
    cases env.countError with
    | some e => rfl
    | none => simp [h]
  · intro calls
    induction calls with
    | nil => exact fun store h => h
    | cons c rest ih =>
      intro store h
      exact ih _ (addFeedRun_preserves_unique c.1 store c.2 h)

/-- Witness for C7: a second `addFeed` of an already-stored URL is a
no-op, and the invariant holds after a sequence of calls from the empty
store. -/
theorem addFeed_no_duplicates_witness :
    addFeedRun exEnv exStoreWithFeed "http://example.org/feed" =
      (exStoreWithFeed, false) ∧
    UniqueFeedUrls (runAddFeeds [(exEnv, "http://example.org/feed")]
      { feeds := [], articles := [] }) :=
  ⟨addFeed_no_duplicates.1 exEnv exStoreWithFeed "http://example.org/feed"
      (by decide),
   addFeed_no_duplicates.2.2 [(exEnv, "http://example.org/feed")]
      { feeds := [], articles := [] }
      (fun u => by simp [countFeed])⟩

/-- C10: the done-callback of `addFeed(url, callback)` runs only on the
path where the existence check succeeded and found the URL not already
stored, the transport returned an HTTP 200 response, the body's encoding
normalization did not throw, and the parse stream reached its `end`
event.  Consequently the callback never runs when the feed already
exists, the existence check errors, the transport fails, or the status
is 304 or any other non-200 value. -/
theorem addFeed_callback_only_on_success :
    ∀ (env : Env) (store : Store) (url : String),
      (addFeedRun env store url).2 = true →
        env.countError = none ∧
        countFeed store.feeds url = 0 ∧
        ∃ headers body,
          env.fetch (ifModifiedSinceHeader env store url) =
            .response 200 headers body ∧
          ∃ buf,
            getBufferAsUtf8Buffer env.detect env.iconvDecode env.iconvEncode body =
              .ok buf ∧
            (env.parse buf).reachedEnd = true := by
  intro env store url hcb
  unfold addFeedRun at hcb
  split at hcb
  · simp at hcb
  next hce =>
    split at hcb
    next hc =>
      refine ⟨hce, hc, ?_⟩
      unfold requestAndParseFeedRun handleResponseRun at hcb
      split at hcb
      · simp at hcb
      next status headers body hfr =>
        split at hcb
        next h200 =>
          subst h200
          split at hcb
          · simp at hcb
          next buf hb =>
            exact ⟨headers, body, hfr, buf, hb, hcb⟩
        next h200 =>
          split at hcb <;> simp at hcb
    next hc =>
      simp at hcb

/-- Witness for C10: with an all-success environment on an empty store,
the callback runs and the success-path facts hold. -/
theorem addFeed_callback_only_on_success_witness :
    exEnv.countError = none ∧
    countFeed (Store.mk [] []).feeds "http://example.org/feed" = 0 ∧
    ∃ headers body,
      exEnv.fetch (ifModifiedSinceHeader exEnv (Store.mk [] [])
        "http://example.org/feed") = .response 200 headers body ∧
      ∃ buf,
        getBufferAsUtf8Buffer exEnv.detect exEnv.iconvDecode exEnv.iconvEncode body =
          .ok buf ∧
        (exEnv.parse buf).reachedEnd = true :=
  addFeed_callback_only_on_success exEnv (Store.mk [] [])
    "http://example.org/feed" (by decide)

/-- Helper: `Char.ofNat` below the surrogate range round-trips to `toNat`. -/
theorem char_toNat_ofNat_small {n : Nat} (h : n < 55296) : (Char.ofNat n).toNat = n := by
  have hv : n.isValidChar := Or.inl h
  rw [Char.ofNat, dif_pos hv]
  simp [Char.ofNatAux, Char.toNat, UInt32.toNat]

/-- Helper: if `c` is not a lowercase letter, the only character whose
`toLower` is `c` is `c` itself. -/
theorem toLower_eq_fixed {x c : Char} (hc1 : ¬(97 ≤ c.toNat ∧ c.toNat ≤ 122))
    (h : x.toLower = c) : x = c := by
  have h' : (if x.toNat ≥ 65 ∧ x.toNat ≤ 90 then Char.ofNat (x.toNat + 32) else x) = c := h
  by_cases hx : x.toNat ≥ 65 ∧ x.toNat ≤ 90
  · exfalso
    rw [if_pos hx] at h'
    apply hc1
    rw [← h']
    have hlt : x.toNat + 32 < 55296 := by omega
    rw [char_toNat_ofNat_small hlt]
    omega
  · rw [if_neg hx] at h'
    exact h'

/-- Helper: a match of a nested alternation comes from one alternative. -/
theorem altListReg1_sound {s : List Char} {x y : Nat} :
    ∀ (r : Reg) (rs : List Reg), RMatch s (altListReg1 r rs) x y →
      RMatch s r x y ∨ ∃ r' ∈ rs, RMatch s r' x y := by
  intro r rs
  induction rs generalizing r with
  | nil => exact fun h => Or.inl h
  | cons r1 rest ih =>
    intro h
    cases h with
    | altL h1 => exact Or.inl h1
    | altRt h2 =>
      rcases ih r1 h2 with h' | ⟨r', hr', h'⟩
      · exact Or.inr ⟨r1, by simp, h'⟩
      · exact Or.inr ⟨r', by simp [hr'], h'⟩

/-- Helper: the head alternative matches the nested alternation. -/
theorem altListReg1_complete_head {s : List Char} {x y : Nat} (r : Reg)
    (rs : List Reg) (h : RMatch s r x y) : RMatch s (altListReg1 r rs) x y := by
  cases rs with
  | nil => exact h
  | cons r1 rest => exact RMatch.altL h

/-- Helper: any listed alternative matches the nested alternation. -/
theorem altListReg1_complete_mem {s : List Char} {x y : Nat} {r' : Reg} :
    ∀ (r : Reg) (rs : List Reg), r' ∈ rs → RMatch s r' x y →
      RMatch s (altListReg1 r rs) x y := by
  intro r rs
  induction rs generalizing r with
  | nil => exact fun h _ => absurd h (List.not_mem_nil r')
  | cons r1 rest ih =>
    intro hmem h
    rcases List.mem_cons.mp hmem with rfl | hmem'
    · exact RMatch.altRt (altListReg1_complete_head r' rest h)
    · exact RMatch.altRt (ih r1 hmem' h)

/-- Helper: a case-insensitive literal of a delimiter character can only
match that very character (delimiters are not letters). -/
theorem litCI_delim_sound {s : List Char} {c : Char} {x y : Nat}
    (hc : isDelimCharB c = true) (hcl : ¬(97 ≤ c.toNat ∧ c.toNat ≤ 122))
    (hcself : c.toLower = c) (h : RMatch s (.litCI c) x y) :
    y = x + 1 ∧ ∃ ch, s[x]? = some ch ∧ isDelimCharB ch = true := by
  cases h with
  | lit hx hl =>
    rw [hcself] at hl
    have hxc := toLower_eq_fixed hcl hl
    subst hxc
    exact ⟨rfl, _, hx, hc⟩

/-- Helper: inversion of the source alternation `A`: it either consumed
the `$` anchor at the end of the subject, or exactly one delimiter
character. -/
theorem delimAlt_sound {s : List Char} {x y : Nat}
    (h : RMatch s delimAltReg x y) :
    (x = s.length ∧ y = s.length) ∨
    (y = x + 1 ∧ ∃ ch, s[x]? = some ch ∧ isDelimCharB ch = true) := by
  rcases altListReg1_sound _ _ h with hws | ⟨r', hr', h'⟩
  · cases hws with
    | wsc hx hw => exact Or.inr ⟨rfl, _, hx, by simp [isDelimCharB, hw]⟩
  · simp only [delimAltTail, List.mem_cons, List.not_mem_nil, or_false] at hr'
    rcases hr' with rfl|rfl|rfl|rfl|rfl|rfl|rfl|rfl|rfl|rfl|rfl|rfl|rfl|rfl|rfl|rfl|rfl|rfl|rfl|rfl|rfl <;>
      first
      | exact Or.inr (litCI_delim_sound (by decide) (by decide) (by decide) h')
      | (cases h' with | eolM => exact Or.inl ⟨rfl, rfl⟩)

/-- Helper: one listed literal alternative of `A` matches. -/
theorem delim_lit_match {s : List Char} {x : Nat} {ch : Char} (c : Char)
    (hx : s[x]? = some ch) (hh : ch.toLower = c.toLower)
    (hmem : Reg.litCI c ∈ delimAltTail) : RMatch s delimAltReg x (x + 1) :=
  altListReg1_complete_mem _ _ hmem (RMatch.lit hx hh)

/-- Helper: any delimiter character is consumed by the alternation `A`. -/
theorem delimAlt_complete {s : List Char} {x : Nat} {ch : Char}
    (hx : s[x]? = some ch) (hd : isDelimCharB ch = true) :
    RMatch s delimAltReg x (x + 1) := by
  rcases Bool.or_eq_true_iff.mp hd with hw | hm
  · exact altListReg1_complete_head _ _ (RMatch.wsc hx hw)
  · have hmem : ch ∈ delimChars := of_decide_eq_true hm
    simp only [delimChars, List.mem_cons, List.not_mem_nil, or_false] at hmem
    rcases hmem with rfl|rfl|rfl|rfl|rfl|rfl|rfl|rfl|rfl|rfl|rfl|rfl|rfl|rfl|rfl|rfl|rfl|rfl|rfl|rfl <;>
      exact delim_lit_match _ hx rfl (by decide)

/-- Helper: inversion of the spliced keyword literal: it spans exactly
`k.length` positions and the subject slice equals `k`
case-insensitively. -/
theorem litStr_sound {s : List Char} :
    ∀ (k : List Char) {i j : Nat}, RMatch s (litStr k) i j →
      j = i + k.length ∧ sliceEqCI s k i = true := by
  intro k
  induction k with
  | nil =>
    intro i j h
    cases h with
    | epsM => exact ⟨by simp, rfl⟩
  | cons c k' ih =>
    intro i j h
    cases h with
    | catM h1 h2 =>
      cases h1 with
      | lit hx hl =>
        obtain ⟨hj, hs⟩ := ih h2
        refine ⟨by simp [hj]; omega, ?_⟩
        unfold sliceEqCI
        rw [hx]
        simp [hs, hl]

/-- Helper: a case-insensitively equal slice is matched by the spliced
keyword literal. -/
theorem litStr_complete {s : List Char} :
    ∀ (k : List Char) (i : Nat), sliceEqCI s k i = true →
      RMatch s (litStr k) i (i + k.length) := by
  intro k
  induction k with
  | nil => exact fun i _ => @RMatch.epsM s i
  | cons c k' ih =>
    intro i h
    rcases Bool.and_eq_true_iff.mp h with ⟨h1, h2⟩
    cases hx : s[i]? with
    | none => rw [hx] at h1; cases h1
    | some ch =>
      rw [hx] at h1
      have hl : ch.toLower = c.toLower := beq_iff_eq.mp h1
      have hcat := RMatch.catM (RMatch.lit hx hl) (ih (i + 1) h2)
      have harr : (i + 1) + k'.length = i + (k'.length + 1) := by omega
      rw [harr] at hcat
      exact hcat

/-- Helper: a nonempty slice match pins the start position inside the
subject. -/
theorem sliceEqCI_lt {s k : List Char} (hk : k ≠ []) {p : Nat}
    (h : sliceEqCI s k p = true) : p < s.length := by
  cases k with
  | nil => exact absurd rfl hk
  | cons c k' =>
    rcases Bool.and_eq_true_iff.mp h with ⟨h1, _⟩
    cases hx : s[p]? with
    | none => rw [hx] at h1; cases h1
    | some ch => exact (List.getElem?_eq_some.mp hx).1

/-- Helper: inversion of `r*`: either it consumed nothing, or the final
position satisfies every property the single-step end positions do. -/
theorem star_end_inv {s : List Char} (r : Reg) (Q : Nat → Prop)
    (hQ : ∀ x y, RMatch s r x y → Q y) :
    ∀ {r' : Reg} {i j : Nat}, RMatch s r' i j → r' = .starR r → i = j ∨ Q j := by
  intro r' i j h
  induction h with
  | dot hx hl => exact fun he => Reg.noConfusion he
  | lit hx hl => exact fun he => Reg.noConfusion he
  | wsc hx hw => exact fun he => Reg.noConfusion he
  | bolM => exact fun he => Reg.noConfusion he
  | eolM => exact fun he => Reg.noConfusion he
  | epsM => exact fun he => Reg.noConfusion he
  | catM h1 h2 ih1 ih2 => exact fun he => Reg.noConfusion he
  | altL h1 ih1 => exact fun he => Reg.noConfusion he
  | altRt h1 ih1 => exact fun he => Reg.noConfusion he
  | starNil => exact fun _ => Or.inl rfl
  | starCons h1 h2 ih1 ih2 =>
    intro he
    injection he with he'
    subst he'
    rcases ih2 rfl with heq | hq
    · right
      rw [heq] at h1
      exact hQ _ _ h1
    · exact Or.inr hq

/-- Helper: a single iteration of the left group `(^|A)` ends at the
subject start, at the subject end, or right after a delimiter. -/
theorem leftAlt_end {s : List Char} {x y : Nat}
    (h : RMatch s (.altR .bolR delimAltReg) x y) :
    y = 0 ∨ y = s.length ∨
      (0 < y ∧ ∃ c, s[y - 1]? = some c ∧ isDelimCharB c = true) := by
  cases h with
  | altL hb => cases hb with | bolM => exact Or.inl rfl
  | altRt hd =>
    rcases delimAlt_sound hd with ⟨_, hy⟩ | ⟨hy, c, hc, hdc⟩
    · exact Or.inr (Or.inl hy)
    · subst hy
      exact Or.inr (Or.inr ⟨Nat.succ_pos x, c, hc, hdc⟩)

/-- Helper: the left group `(^|A)+` ends at the subject start, at the
subject end, or right after a delimiter. -/
theorem left_group_end {s : List Char} {a b : Nat}
    (h : RMatch s (plusR (.altR .bolR delimAltReg)) a b) :
    b = 0 ∨ b = s.length ∨
      (0 < b ∧ ∃ c, s[b - 1]? = some c ∧ isDelimCharB c = true) := by
  cases h with
  | catM h1 h2 =>
    rcases star_end_inv (.altR .bolR delimAltReg)
        (fun y => y = 0 ∨ y = s.length ∨
          (0 < y ∧ ∃ c, s[y - 1]? = some c ∧ isDelimCharB c = true))
        (fun _ _ hg => leftAlt_end hg) h2 rfl with heq | hq
    · rw [heq] at h1
      exact leftAlt_end h1
    · exact hq

/-- Helper: the right group `(A|$)+` starts at the subject end or on a
delimiter. -/
theorem right_group_start {s : List Char} {a b : Nat}
    (h : RMatch s (plusR (.altR delimAltReg .eolR)) a b) :
    a = s.length ∨ ∃ c, s[a]? = some c ∧ isDelimCharB c = true := by
  cases h with
  | catM h1 _ =>
    cases h1 with
    | altL hd =>
      rcases delimAlt_sound hd with ⟨hx, _⟩ | ⟨_, c, hc, hdc⟩
      · exact Or.inl hx
      · exact Or.inr ⟨c, hc, hdc⟩
    | altRt he => cases he with | eolM => exact Or.inl rfl

/-- Helper (soundness): an unanchored match of the source pattern yields
a delimiter-bounded case-insensitive occurrence of the keyword. -/
theorem searchTerm_sound {s k : List Char} (hk : k ≠ [])
    (h : ∃ i j, RMatch s (searchTermReg k) i j) :
    boundaryOccurB s k = true := by
  obtain ⟨i, j, h⟩ := h
  unfold searchTermReg at h
  cases h with
  | catM hst1 hrest =>
    rename_i a
    cases hrest with
    | catM hleft hrest2 =>
      rename_i b
      cases hrest2 with
      | catM hlit hrest3 =>
        rename_i c
        cases hrest3 with
        | catM hright hst2 =>
          rename_i d
          obtain ⟨hceq, hslice⟩ := litStr_sound k hlit
          subst hceq
          have hblt : b < s.length := sliceEqCI_lt hk hslice
          unfold boundaryOccurB
          rw [List.any_eq_true]
          refine ⟨b, by rw [List.mem_range]; omega, ?_⟩
          unfold boundaryOccurAt
          rw [Bool.and_eq_true, Bool.and_eq_true]
          refine ⟨⟨hslice, ?_⟩, ?_⟩
          · rcases left_group_end hleft with hb0 | hbl | ⟨hbpos, cch, hcch, hcd⟩
            · simp [hb0]
            · omega
            · simp [hcch, hcd]
          · rcases right_group_start hright with hre | ⟨c2, hc2, hd2⟩
            · simp [hre]
            · simp [hc2, hd2]

/-- Helper (completeness): a delimiter-bounded case-insensitive
occurrence of the keyword yields an unanchored match of the source
pattern. -/
theorem searchTerm_complete {s k : List Char}
    (h : boundaryOccurB s k = true) :
    ∃ i j, RMatch s (searchTermReg k) i j := by
  unfold boundaryOccurB at h
  rw [List.any_eq_true] at h
  obtain ⟨p, hp, hat⟩ := h
  unfold boundaryOccurAt at hat
  rw [Bool.and_eq_true, Bool.and_eq_true] at hat
  obtain ⟨⟨hslice, hleft⟩, hright⟩ := hat
  have hlit : RMatch s (litStr k) p (p + k.length) := litStr_complete k p hslice
  have hrg : ∃ e, RMatch s (plusR (.altR delimAltReg .eolR)) (p + k.length) e := by
    rcases Bool.or_eq_true_iff.mp hright with hre | hany
    · have hre' : p + k.length = s.length := of_decide_eq_true hre
      refine ⟨p + k.length, ?_⟩
      rw [hre']
      exact RMatch.catM (RMatch.altRt RMatch.eolM) RMatch.starNil
    · cases ho : s[p + k.length]? with
      | none => rw [ho] at hany; cases hany
      | some ch =>
        rw [ho] at hany
        exact ⟨p + k.length + 1,
          RMatch.catM (RMatch.altL (delimAlt_complete ho hany)) RMatch.starNil⟩
  obtain ⟨e, hrg⟩ := hrg
  have hlg : ∃ a, RMatch s (plusR (.altR .bolR delimAltReg)) a p := by
    by_cases hp0 : p = 0
    · subst hp0
      exact ⟨0, RMatch.catM (RMatch.altL RMatch.bolM) RMatch.starNil⟩
    · rcases Bool.or_eq_true_iff.mp hleft with h0 | hany
      · exact absurd (of_decide_eq_true h0) hp0
      · cases ho : s[p - 1]? with
        | none => rw [ho] at hany; cases hany
        | some ch =>
          rw [ho] at hany
          refine ⟨p - 1, ?_⟩
          have hstep : RMatch s (plusR (.altR .bolR delimAltReg))
              (p - 1) (p - 1 + 1) :=
            RMatch.catM (RMatch.altRt (delimAlt_complete ho hany)) RMatch.starNil
          rw [Nat.sub_add_cancel (by omega : 1 ≤ p)] at hstep
          exact hstep
  obtain ⟨a, hlg⟩ := hlg
  exact ⟨a, e, RMatch.catM RMatch.starNil
    (RMatch.catM hlg (RMatch.catM hlit (RMatch.catM hrg RMatch.starNil)))⟩

/-- C5: for every stored article carrying string `title`, `description`
and `author` fields and every nonempty alphanumeric keyword, the search
criteria built by `createQueryForArticles` match the article exactly when
one of those three fields contains the keyword case-insensitively bounded
on both sides by a delimiter character (whitespace or the listed
punctuation) or the string start/end; concretely, keyword `Foo` matches
the stored title `Read Foo Bar` and does not match the stored title
`Foobartech`. -/
theorem keyword_search_delimiter_bounded :
    (∀ (d : ArticleDoc) (t dsc au : String) (k : List Char),
      d.title = .str t → d.description = .str dsc → d.author = .str au →
      k ≠ [] → (∀ c ∈ k, c.isAlphanum = true) →
      (articleMatchesCriteria k none none d ↔
        (boundaryOccurB t.data k = true ∨ boundaryOccurB dsc.data k = true ∨
         boundaryOccurB au.data k = true))) ∧
    articleMatchesCriteria fooKeyword none none exArticleReadFooBar ∧
    ¬ articleMatchesCriteria fooKeyword none none exArticleFoobartech := by
  have hgen : ∀ (d : ArticleDoc) (t dsc au : String) (k : List Char),
      d.title = .str t → d.description = .str dsc → d.author = .str au →
      k ≠ [] → (∀ c ∈ k, c.isAlphanum = true) →
      (articleMatchesCriteria k none none d ↔
        (boundaryOccurB t.data k = true ∨ boundaryOccurB dsc.data k = true ∨
         boundaryOccurB au.data k = true)) := by
    intro d t dsc au k ht hd ha hk _halnum
    have hfield : ∀ (f : JSVal) (u : String), f = .str u →
        (fieldRegexTest (searchTermReg k) f ↔ boundaryOccurB u.data k = true) := by
      intro f u hf
      subst hf
      constructor
      · rintro ⟨s', heq, hm⟩
        injection heq with h2
        subst h2
        exact searchTerm_sound hk hm
      · intro hb
        exact ⟨u, rfl, searchTerm_complete hb⟩
    unfold articleMatchesCriteria
    constructor
    · rintro ⟨hor, -, -⟩
      rcases hor with hm | hm | hm
      · exact Or.inl ((hfield _ _ ht).mp hm)
      · exact Or.inr (Or.inl ((hfield _ _ hd).mp hm))
      · exact Or.inr (Or.inr ((hfield _ _ ha).mp hm))
    · intro hb
      refine ⟨?_, trivial, trivial⟩
      rcases hb with hb | hb | hb
      · exact Or.inl ((hfield _ _ ht).mpr hb)
      · exact Or.inr (Or.inl ((hfield _ _ hd).mpr hb))
      · exact Or.inr (Or.inr ((hfield _ _ ha).mpr hb))
  refine ⟨hgen, ?_, ?_⟩
  · apply (hgen exArticleReadFooBar "Read Foo Bar" "irrelevant" "irrelevant"
      fooKeyword rfl rfl rfl (by decide) (by decide)).mpr
    left
    decide
  · intro hmatch
    have hb := (hgen exArticleFoobartech "Foobartech" "irrelevant" "irrelevant"
      fooKeyword rfl rfl rfl (by decide) (by decide)).mp hmatch
    rcases hb with hb | hb | hb <;> revert hb <;> decide

/-- Witness for C5: the equivalence applied to the concrete stored
article titled `Read Foo Bar` with keyword `Foo`. -/
theorem keyword_search_delimiter_bounded_witness :
    articleMatchesCriteria fooKeyword none none exArticleReadFooBar ↔
      (boundaryOccurB "Read Foo Bar".data fooKeyword = true ∨
       boundaryOccurB "irrelevant".data fooKeyword = true ∨
       boundaryOccurB "irrelevant".data fooKeyword = true) :=
  keyword_search_delimiter_bounded.1 exArticleReadFooBar "Read Foo Bar"
    "irrelevant" "irrelevant" fooKeyword rfl rfl rfl (by decide) (by decide)
